import Mathlib

/-!
Verification of the particle/flocking core of "the-face"
(`src/js/particles.js`: `Particle` and `ParticleSystem`).

Vectors are modelled over the reals; the p5.js vector operations used by the
code (`add`, `sub`, `mult`, `div`, `mag`, `magSq`, `normalize`, `limit`,
`dist`) are embedded with their p5 semantics.
-/

noncomputable section

/-- A 2D vector (p5.Vector restricted to the plane, as the code uses it). -/
structure Vec where
  x : ℝ
  y : ℝ

namespace Vec

def zero : Vec := ⟨0, 0⟩

def add (a b : Vec) : Vec := ⟨a.x + b.x, a.y + b.y⟩

def sub (a b : Vec) : Vec := ⟨a.x - b.x, a.y - b.y⟩

/-- p5 `mult` by a scalar. -/
def mult (a : Vec) (s : ℝ) : Vec := ⟨a.x * s, a.y * s⟩

/-- p5 `div` by a scalar. -/
def div (a : Vec) (s : ℝ) : Vec := ⟨a.x / s, a.y / s⟩

/-- p5 `magSq`: `x*x + y*y`. -/
def magSq (a : Vec) : ℝ := a.x * a.x + a.y * a.y

/-- p5 `mag`: `Math.sqrt(this.magSq())`. -/
def mag (a : Vec) : ℝ := Real.sqrt a.magSq

/-- p5 `normalize`: scale by `1 / mag` unless the magnitude is zero. -/
def normalize (a : Vec) : Vec :=
  if a.mag = 0 then a else a.mult (1 / a.mag)

/-- p5 `limit(max)`: if `magSq > max*max`, rescale to magnitude `max`. -/
def limit (a : Vec) (max : ℝ) : Vec :=
  if a.magSq > max * max then (a.div (Real.sqrt a.magSq)).mult max else a

/-- p5 `dist`: magnitude of the difference. -/
def dist (a b : Vec) : ℝ := (a.sub b).mag
end Vec

/-- p5 `map(n, start1, stop1, start2, stop2)` (no bounds clamping, as called
by the code). -/
def mapRange (n start1 stop1 start2 stop2 : ℝ) : ℝ :=
  (n - start1) / (stop1 - start1) * (stop2 - start2) + start2

/-- The state of one `Particle`. The constructor draws `velocity`, `size`,
`color` and `decay` at random; here they are arbitrary field values. The
constructor fixes `maxSpeed = 4`, `maxForce = 0.1`, `lifespan = 255`,
`isAttracted = false`. -/
structure Particle where
  position : Vec
  velocity : Vec
  acceleration : Vec
  maxSpeed : ℝ
  maxForce : ℝ
  size : ℝ
  lifespan : ℝ
  decay : ℝ
  isAttracted : Bool

namespace Particle

/-- `applyForce(force)`: `this.acceleration.add(force)`. -/
def applyForce (p : Particle) (force : Vec) : Particle :=
  { p with acceleration := p.acceleration.add force }

/-- `seek(target, strength = 1)`. -/
def seek (p : Particle) (target : Vec) (strength : ℝ) : Vec :=
  let desired := target.sub p.position
  let distance := desired.mag
  if distance < 1 then
    Vec.zero
  else
    let desired := (desired.normalize).mult p.maxSpeed
    let steer := (desired.sub p.velocity).limit p.maxForce
    steer.mult strength

/-- `separate(particles, desiredSeparation = 25)`. -/
def separate (p : Particle) (particles : List Particle)
    (desiredSeparation : ℝ) : Vec :=
  let acc := particles.foldl
    (fun (acc : Vec × ℕ) other =>
      let d := Vec.dist p.position other.position
      if 0 < d ∧ d < desiredSeparation then
        let diff := ((p.position.sub other.position).normalize).div d
        (acc.1.add diff, acc.2 + 1)
      else acc)
    (Vec.zero, 0)
  let steer := if acc.2 > 0 then acc.1.div (acc.2 : ℝ) else acc.1
  if steer.mag > 0 then
    (((steer.normalize).mult p.maxSpeed).sub p.velocity).limit p.maxForce
  else steer

/-- `align(particles, neighborDistance = 50)`. -/
def align (p : Particle) (particles : List Particle)
    (neighborDistance : ℝ) : Vec :=
  let acc := particles.foldl
    (fun (acc : Vec × ℕ) other =>
      let d := Vec.dist p.position other.position
      if 0 < d ∧ d < neighborDistance then (acc.1.add other.velocity, acc.2 + 1)
      else acc)
    (Vec.zero, 0)
  if acc.2 > 0 then
    let sum := ((acc.1.div (acc.2 : ℝ)).normalize).mult p.maxSpeed
    (sum.sub p.velocity).limit p.maxForce
  else Vec.zero

/-- `cohesion(particles, neighborDistance = 50)`. -/
def cohesion (p : Particle) (particles : List Particle)
    (neighborDistance : ℝ) : Vec :=
  let acc := particles.foldl
    (fun (acc : Vec × ℕ) other =>
      let d := Vec.dist p.position other.position
      if 0 < d ∧ d < neighborDistance then (acc.1.add other.position, acc.2 + 1)
      else acc)
    (Vec.zero, 0)
  if acc.2 > 0 then p.seek (acc.1.div (acc.2 : ℝ)) 0.5
  else Vec.zero

/-- `borders(width, height)` with `buffer = 50`. The `desired || ...`
pattern keeps an already-set horizontal correction. -/
def borders (p : Particle) (width height : ℝ) : Vec :=
  let buffer : ℝ := 50
  let d1 : Option Vec :=
    if p.position.x < buffer then some ⟨p.maxSpeed, p.velocity.y⟩
    else if p.position.x > width - buffer then some ⟨-p.maxSpeed, p.velocity.y⟩
    else none
  let d2 : Option Vec :=
    if p.position.y < buffer then some (d1.getD ⟨p.velocity.x, p.maxSpeed⟩)
    else if p.position.y > height - buffer then
      some (d1.getD ⟨p.velocity.x, -p.maxSpeed⟩)
    else d1
  match d2 with
  | some desired =>
      (((desired.normalize).mult p.maxSpeed).sub p.velocity).limit p.maxForce
  | none => Vec.zero

/-- `update()`: integrate acceleration (speed-limited), move, reset the
accumulator, then drain or regenerate `lifespan`. -/
def update (p : Particle) : Particle :=
  let velocity := (p.velocity.add p.acceleration).limit p.maxSpeed
  let position := p.position.add velocity
  let lifespan :=
    if p.isAttracted = false then p.lifespan - p.decay
    else min 255 (p.lifespan + p.decay * 2)
  { p with velocity := velocity, position := position,
           acceleration := p.acceleration.mult 0, lifespan := lifespan }

/-- `isDead()`: `lifespan ≤ 0`. -/
def isDead (p : Particle) : Prop := p.lifespan ≤ 0

instance (p : Particle) : Decidable p.isDead := by
  unfold isDead; infer_instance

end Particle

/-- The `ParticleSystem` state: the population, the attractor snapshot, and
the population target. -/
structure ParticleSystem where
  particles : List Particle
  attractors : List Vec
  maxParticles : ℕ

namespace ParticleSystem

/-- `setAttractors(landmarks)`: replace the attractor list wholesale. -/
def setAttractors (sys : ParticleSystem) (landmarks : List Vec) :
    ParticleSystem :=
  { sys with attractors := landmarks }

/-- The closest-attractor scan of `update`: starting from
`closestDist = Infinity`, keep an attractor when `d < closestDist && d < 150`.
The accumulator holds the current best together with its distance (`none`
while `closestAttractor` is still `null`, in which case `d < Infinity`
always holds). -/
def closestAttractor (pos : Vec) (attractors : List Vec) :
    Option (Vec × ℝ) :=
  attractors.foldl
    (fun acc a =>
      let d := Vec.dist pos a
      match acc with
      | none => if d < 150 then some (a, d) else none
      | some (b, cd) => if d < cd ∧ d < 150 then some (a, d) else some (b, cd))
    none

/-- The attraction block of `update`: if any attractor is in range, apply
`seek` toward the closest one with a distance-mapped strength and set
`isAttracted`. -/
def attractStep (attractors : List Vec) (p : Particle) : Particle :=
  if attractors.length > 0 then
    match closestAttractor p.position attractors with
    | some (a, closestDist) =>
        let strength := mapRange closestDist 0 150 2.5 0.5
        { p.applyForce (p.seek a strength) with isAttracted := true }
    | none => p
  else p

/-- The flocking part of `update`'s per-particle loop: apply the four
scaled flocking forces (each computed from the pre-tick particle against
the current population `qs`) and reset `isAttracted`. -/
def flockStep (width height : ℝ) (qs : List Particle) (p : Particle) :
    Particle :=
  { (((p.applyForce ((p.separate qs 25).mult 1.5)).applyForce
        ((p.align qs 50).mult 1.0)).applyForce
        ((p.cohesion qs 50).mult 1.0)).applyForce
        ((p.borders width height).mult 1.5) with
    isAttracted := false }

/-- The body of `update`'s per-particle loop, up to but excluding the
death check: flocking forces and `isAttracted` reset, then the attraction
block, then `p.update()`. -/
def tickParticle (attractors : List Vec) (width height : ℝ)
    (qs : List Particle) (p : Particle) : Particle :=
  (attractStep attractors (flockStep width height qs p)).update

/-- The backward index loop of `update`: `sysLoop atts w h (i+1) ps`
processes index `i` of `ps` and recurses on the lower indices. In the
source the slot is mutated in place and then `splice(i, 1)` removes it when
dead; on lists that is `set i` for a survivor and `eraseIdx i` for a death
(the updated value at `i` being discarded by the splice). -/
def sysLoop (attractors : List Vec) (width height : ℝ) :
    ℕ → List Particle → List Particle
  | 0, ps => ps
  | i + 1, ps =>
    match ps[i]? with
    | none => sysLoop attractors width height i ps
    | some p =>
      let p2 := tickParticle attractors width height ps p
      sysLoop attractors width height i
        (if p2.isDead then ps.eraseIdx i else ps.set i p2)

/-- The number of deaths of the loop: how many particles `sysLoop` removes. -/
def sysDeaths (attractors : List Vec) (width height : ℝ) :
    ℕ → List Particle → ℕ
  | 0, _ => 0
  | i + 1, ps =>
    match ps[i]? with
    | none => sysDeaths attractors width height i ps
    | some p =>
      let p2 := tickParticle attractors width height ps p
      if p2.isDead then 1 + sysDeaths attractors width height i (ps.eraseIdx i)
      else sysDeaths attractors width height i (ps.set i p2)

/-- The replenish phase of `update`: `while (length < maxParticles)
addParticle()`. `addParticle` draws a fresh random particle; the random
draws are modelled by the stream `fresh`. -/
def replenish (fresh : ℕ → Particle) (sys : ParticleSystem) : List Particle :=
  sys.particles ++ (List.range (sys.maxParticles - sys.particles.length)).map fresh

/-- `ParticleSystem.update()`: replenish, then run the backward loop over
the whole population. -/
def update (fresh : ℕ → Particle) (width height : ℝ)
    (sys : ParticleSystem) : ParticleSystem :=
  let ps := sys.replenish fresh
  { sys with particles := sysLoop sys.attractors width height ps.length ps }

end ParticleSystem

/-- A concrete particle used to instantiate theorems with hypotheses. -/
def p0 : Particle :=
  { position := ⟨100, 100⟩, velocity := Vec.zero, acceleration := Vec.zero,
    maxSpeed := 4, maxForce := 0.1, size := 5, lifespan := 255, decay := 1,
    isAttracted := false }

/-- The particle of the border scenario: position (5,300), velocity (-3,0). -/
def borderP : Particle :=
  { position := ⟨5, 300⟩, velocity := ⟨-3, 0⟩, acceleration := Vec.zero,
    maxSpeed := 4, maxForce := 0.1, size := 5, lifespan := 255, decay := 1,
    isAttracted := false }

/-- The dying particle of the C1 counterexample: `lifespan = 1`,
`decay = 2`, so one unattracted tick kills it. -/
def dyingP : Particle :=
  { position := ⟨100, 100⟩, velocity := Vec.zero, acceleration := Vec.zero,
    maxSpeed := 4, maxForce := 0.1, size := 5, lifespan := 1, decay := 2,
    isAttracted := false }

/-- A system holding exactly the dying particle, with `maxParticles = 1`. -/
def sysC1 : ParticleSystem :=
  { particles := [dyingP], attractors := [], maxParticles := 1 }

/-- A system holding exactly the healthy particle `p0`. -/
def sysC6 : ParticleSystem :=
  { particles := [p0], attractors := [], maxParticles := 1 }

/-! ### Helper lemmas -/

namespace Vec

@[ext] theorem ext' {a b : Vec} (hx : a.x = b.x) (hy : a.y = b.y) : a = b := by
  cases a; cases b; simp_all

theorem mag_nonneg (a : Vec) : 0 ≤ a.mag := Real.sqrt_nonneg _

theorem magSq_nonneg (a : Vec) : 0 ≤ a.magSq := by
  have hx := mul_self_nonneg a.x
  have hy := mul_self_nonneg a.y
  simp only [magSq]; linarith

theorem mag_sq_eq (a : Vec) : a.mag * a.mag = a.magSq :=
  Real.mul_self_sqrt a.magSq_nonneg

theorem mag_mult (a : Vec) (s : ℝ) : (a.mult s).mag = |s| * a.mag := by
  simp only [mag, magSq, mult]
  have h : (a.x * s) * (a.x * s) + (a.y * s) * (a.y * s)
      = (s * s) * (a.x * a.x + a.y * a.y) := by ring
  rw [h, Real.sqrt_mul (mul_self_nonneg s), Real.sqrt_mul_self_eq_abs]

theorem mag_zero : (zero).mag = 0 := by
  simp [mag, magSq, zero]

/-- The magnitude after `limit max` is at most `max` (for nonnegative `max`). -/
theorem mag_limit_le (a : Vec) {m : ℝ} (hm : 0 ≤ m) : (a.limit m).mag ≤ m := by
  by_cases h : a.magSq > m * m
  · have hpos : 0 < a.mag := by
      have : 0 < a.magSq := lt_of_le_of_lt (mul_self_nonneg m) h
      have := a.mag_sq_eq
      nlinarith [a.mag_nonneg]
    have : (a.div (Real.sqrt a.magSq)).mult m = a.mult (m / a.mag) := by
      simp only [div, mult, mag]
      ext <;> ring
    simp only [limit, if_pos h, this, mag_mult]
    rw [abs_of_nonneg (by positivity)]
    rw [mul_comm, mul_comm a.mag, div_mul_cancel₀ m (ne_of_gt hpos)]
  · simp only [limit, if_neg h]
    push_neg at h
    have := a.mag_sq_eq
    nlinarith [a.mag_nonneg]

end Vec


theorem sqrt_eval {a b : ℝ} (hb : 0 ≤ b) (h : a = b ^ 2) : Real.sqrt a = b := by
  rw [h, Real.sqrt_sq hb]

namespace Vec

theorem dist_self (a : Vec) : Vec.dist a a = 0 := by
  simp [dist, sub, mag, magSq]

theorem mag_sub_comm (a b : Vec) : (a.sub b).mag = (b.sub a).mag := by
  unfold mag magSq sub
  ring_nf

theorem dist_eq_mag_sub (a b : Vec) : Vec.dist a b = (b.sub a).mag := by
  rw [dist, mag_sub_comm]

theorem add_mult_zero (a b : Vec) : a.add (b.mult 0) = a := by
  ext <;> simp [add, mult]

end Vec

/-! ### Claims -/

/-- Claim C7: if the distance from the particle's position to the target is
less than 1 (in particular when the target equals the position), `seek`
returns the zero vector. (In the embedding `seek` is a pure function of the
particle, so it mutates no particle state by construction.) -/
theorem seek_returns_zero_when_close (p : Particle) (target : Vec)
    (s : ℝ) (h : Vec.dist p.position target < 1) :
    p.seek target s = Vec.zero := by
  have hmag : (target.sub p.position).mag < 1 := by
    rw [← Vec.dist_eq_mag_sub]
    exact h
  simp only [Particle.seek]
  rw [if_pos hmag]

/-- Witness for C7: a particle at (100,100) seeking exactly its own
position gets the zero vector. -/
theorem seek_returns_zero_when_close_witness :
    Vec.dist p0.position ⟨100, 100⟩ < 1 ∧ p0.seek ⟨100, 100⟩ 1 = Vec.zero := by
  have h : Vec.dist p0.position ⟨100, 100⟩ < 1 := by
    norm_num [Vec.dist, Vec.sub, Vec.mag, Vec.magSq, p0]
  exact ⟨h, seek_returns_zero_when_close p0 ⟨100, 100⟩ 1 h⟩

/-- Claim C3: immediately after `Particle.update()`, the velocity magnitude
is at most `maxSpeed` (the constructor's `maxSpeed = 4` is nonnegative). -/
theorem update_velocity_le_maxSpeed (p : Particle) (h : 0 ≤ p.maxSpeed) :
    (p.update).velocity.mag ≤ p.maxSpeed := by
  simp only [Particle.update]
  exact Vec.mag_limit_le _ h

/-- Witness for C3 at the concrete particle `p0` (`maxSpeed = 4`). -/
theorem update_velocity_le_maxSpeed_witness :
    0 ≤ p0.maxSpeed ∧ (p0.update).velocity.mag ≤ p0.maxSpeed := by
  have h : 0 ≤ p0.maxSpeed := by norm_num [p0]
  exact ⟨h, update_velocity_le_maxSpeed p0 h⟩

/-- The common steering pattern: either the clamped steering delta or a
zero-magnitude accumulator. -/
theorem steer_clamped (p : Particle) (steer : Vec) (hF : 0 ≤ p.maxForce) :
    (if steer.mag > 0 then
      (((steer.normalize).mult p.maxSpeed).sub p.velocity).limit p.maxForce
    else steer).mag ≤ p.maxForce := by
  split
  · exact Vec.mag_limit_le _ hF
  · next h =>
      push_neg at h
      linarith

theorem separate_mag_le (p : Particle) (particles : List Particle)
    (dsep : ℝ) (hF : 0 ≤ p.maxForce) :
    (p.separate particles dsep).mag ≤ p.maxForce := by
  simp only [Particle.separate]
  exact steer_clamped p _ hF

theorem align_mag_le (p : Particle) (particles : List Particle)
    (nd : ℝ) (hF : 0 ≤ p.maxForce) :
    (p.align particles nd).mag ≤ p.maxForce := by
  simp only [Particle.align]
  split
  · exact Vec.mag_limit_le _ hF
  · rw [Vec.mag_zero]; exact hF

theorem seek_mag_le (p : Particle) (t : Vec) (s : ℝ)
    (hF : 0 ≤ p.maxForce) (hs : 0 ≤ s) :
    (p.seek t s).mag ≤ s * p.maxForce := by
  simp only [Particle.seek]
  split
  · rw [Vec.mag_zero]; positivity
  · rw [Vec.mag_mult, abs_of_nonneg hs]
    exact mul_le_mul_of_nonneg_left (Vec.mag_limit_le _ hF) hs

theorem cohesion_mag_le (p : Particle) (particles : List Particle)
    (nd : ℝ) (hF : 0 ≤ p.maxForce) :
    (p.cohesion particles nd).mag ≤ p.maxForce := by
  simp only [Particle.cohesion]
  split
  · calc (p.seek _ 0.5).mag ≤ 0.5 * p.maxForce := seek_mag_le p _ _ hF (by norm_num)
      _ ≤ p.maxForce := by linarith
  · rw [Vec.mag_zero]; exact hF

theorem borders_mag_le (p : Particle) (w h : ℝ) (hF : 0 ≤ p.maxForce) :
    (p.borders w h).mag ≤ p.maxForce := by
  simp only [Particle.borders]
  split
  · exact Vec.mag_limit_le _ hF
  · rw [Vec.mag_zero]; exact hF

/-- Claim C2 (amended): `separate`, `align`, `cohesion` and `borders` return
forces of magnitude at most `maxForce`, and `seek(target, strength)` returns
a force of magnitude at most `strength * maxForce` — which is at most
`maxForce` for the default `strength = 1` and cohesion's `0.5`, but not for
the attraction step, whose distance-derived strength ranges up to 2.5. -/
theorem steering_force_bounds (p : Particle) (particles : List Particle)
    (dsep nd w h s : ℝ) (t : Vec) (hF : 0 ≤ p.maxForce) :
    (p.separate particles dsep).mag ≤ p.maxForce ∧
    (p.align particles nd).mag ≤ p.maxForce ∧
    (p.cohesion particles nd).mag ≤ p.maxForce ∧
    (p.borders w h).mag ≤ p.maxForce ∧
    (0 ≤ s → (p.seek t s).mag ≤ s * p.maxForce) :=
  ⟨separate_mag_le p particles dsep hF, align_mag_le p particles nd hF,
   cohesion_mag_le p particles nd hF, borders_mag_le p w h hF,
   fun hs => seek_mag_le p t s hF hs⟩

/-- Witness for C2 (amended), at the concrete particle `p0`. -/
theorem steering_force_bounds_witness :
    0 ≤ p0.maxForce ∧ (0:ℝ) ≤ 1 ∧
    (p0.separate [] 25).mag ≤ p0.maxForce ∧
    (p0.align [] 50).mag ≤ p0.maxForce ∧
    (p0.cohesion [] 50).mag ≤ p0.maxForce ∧
    (p0.borders 800 600).mag ≤ p0.maxForce ∧
    (p0.seek ⟨0, 0⟩ 1).mag ≤ 1 * p0.maxForce := by
  have hF : 0 ≤ p0.maxForce := by norm_num [p0]
  obtain ⟨h1, h2, h3, h4, h5⟩ :=
    steering_force_bounds p0 [] 25 50 800 600 1 ⟨0, 0⟩ hF
  exact ⟨hF, by norm_num, h1, h2, h3, h4, h5 (by norm_num)⟩

/-! Evaluation lemmas for concrete vectors. -/

theorem mag_mk_eval {x y m : ℝ} (hm : 0 ≤ m) (h : x * x + y * y = m ^ 2) :
    (⟨x, y⟩ : Vec).mag = m := by
  unfold Vec.mag Vec.magSq
  exact sqrt_eval hm h

theorem normalize_mk_eval {x y m : ℝ} (hmag : (⟨x, y⟩ : Vec).mag = m)
    (h0 : m ≠ 0) :
    (⟨x, y⟩ : Vec).normalize = ⟨x * (1 / m), y * (1 / m)⟩ := by
  unfold Vec.normalize
  rw [hmag, if_neg h0]
  rfl

theorem limit_mk_gt {x y m c : ℝ} (h : (⟨x, y⟩ : Vec).magSq > m * m)
    (hc : (⟨x, y⟩ : Vec).mag = c) :
    (⟨x, y⟩ : Vec).limit m = ⟨x / c * m, y / c * m⟩ := by
  unfold Vec.limit
  rw [if_pos h, show Real.sqrt (⟨x, y⟩ : Vec).magSq = c from hc]
  rfl

theorem limit_mk_le {x y m : ℝ} (h : ¬ ((⟨x, y⟩ : Vec).magSq > m * m)) :
    (⟨x, y⟩ : Vec).limit m = ⟨x, y⟩ := by
  unfold Vec.limit
  rw [if_neg h]

/-- Counterexample for C2: the attraction step calls `seek` with a
distance-derived strength; at distance 75 the strength is 1.5 and the
returned force has magnitude 0.15 > `maxForce = 0.1`, because `seek`
multiplies by `strength` after clamping to `maxForce`. -/
theorem seek_attraction_force_exceeds_maxForce :
    p0.maxForce <
      (p0.seek ⟨175, 100⟩
        (mapRange (Vec.dist p0.position ⟨175, 100⟩) 0 150 2.5 0.5)).mag := by
  have hpos : p0.position = ⟨100, 100⟩ := rfl
  have hd : Vec.dist p0.position ⟨175, 100⟩ = 75 := by
    rw [hpos]
    show (Vec.sub ⟨100, 100⟩ ⟨175, 100⟩).mag = 75
    rw [show Vec.sub ⟨100, 100⟩ ⟨175, 100⟩ = (⟨-75, 0⟩ : Vec) by
      unfold Vec.sub; norm_num]
    exact mag_mk_eval (by norm_num) (by norm_num)
  rw [hd, show mapRange 75 0 150 2.5 0.5 = 1.5 by unfold mapRange; norm_num]
  have hsub : Vec.sub ⟨175, 100⟩ p0.position = ⟨75, 0⟩ := by
    rw [hpos]
    unfold Vec.sub
    norm_num
  have hm75 : (⟨75, 0⟩ : Vec).mag = 75 := mag_mk_eval (by norm_num) (by norm_num)
  have hseek : p0.seek ⟨175, 100⟩ 1.5 = ⟨0.15, 0⟩ := by
    simp only [Particle.seek]
    rw [hsub, hm75, if_neg (by norm_num : ¬ (75:ℝ) < 1)]
    rw [normalize_mk_eval hm75 (by norm_num)]
    rw [show ((⟨75 * (1/75), 0 * (1/75)⟩ : Vec).mult p0.maxSpeed) = ⟨4, 0⟩ by
      unfold Vec.mult; norm_num [p0]]
    rw [show (Vec.sub ⟨4, 0⟩ p0.velocity) = ⟨4, 0⟩ by
      unfold Vec.sub; norm_num [p0, Vec.zero]]
    rw [show p0.maxForce = 0.1 from rfl]
    rw [limit_mk_gt (by unfold Vec.magSq; norm_num)
      (mag_mk_eval (by norm_num) (by norm_num) : (⟨4, 0⟩ : Vec).mag = 4)]
    unfold Vec.mult
    norm_num
  rw [hseek, mag_mk_eval (by norm_num)
    (by norm_num : (0.15:ℝ) * 0.15 + 0 * 0 = 0.15 ^ 2)]
  norm_num [p0]

/-- Claim C5: `update()` drains `lifespan` by `decay` when unattracted,
sets it to `min(255, lifespan + decay*2)` when attracted, and (for the
constructor's `decay > 0`, `lifespan = 255`) never pushes it above 255. -/
theorem update_lifespan_rule (p : Particle) :
    (p.isAttracted = false → (p.update).lifespan = p.lifespan - p.decay) ∧
    (p.isAttracted = true →
      (p.update).lifespan = min 255 (p.lifespan + p.decay * 2)) ∧
    (0 ≤ p.decay → p.lifespan ≤ 255 → (p.update).lifespan ≤ 255) := by
  refine ⟨?_, ?_, ?_⟩
  · intro h
    simp [Particle.update, h]
  · intro h
    simp [Particle.update, h]
  · intro hd hl
    cases hA : p.isAttracted
    · simp [Particle.update, hA]
      linarith
    · simp [Particle.update, hA]

/-- Witness for C5: the unattracted particle `p0` (`lifespan 255`,
`decay 1`) drains to 254; the attracted variant regenerates to
`min 255 257 = 255`; both stay at most 255. -/
theorem update_lifespan_rule_witness :
    (p0.update).lifespan = p0.lifespan - p0.decay ∧
    (p0.update).lifespan ≤ 255 ∧
    (({ p0 with isAttracted := true} : Particle).update).lifespan =
      min 255 (p0.lifespan + p0.decay * 2) := by
  refine ⟨(update_lifespan_rule p0).1 rfl, ?_, ?_⟩
  · exact (update_lifespan_rule p0).2.2 (by norm_num [p0]) (by norm_num [p0])
  · exact (update_lifespan_rule { p0 with isAttracted := true}).2.1 rfl

/-! Attraction-block lemmas shared by several claims. -/

theorem vec_add_zero (a : Vec) : a.add Vec.zero = a := by
  ext <;> simp [Vec.add, Vec.zero]

/-- `seek` short-circuits to zero below unit distance (shared helper). -/
theorem seek_zero_of_close (p : Particle) (target : Vec) (s : ℝ)
    (h : Vec.dist p.position target < 1) : p.seek target s = Vec.zero := by
  have hmag : (target.sub p.position).mag < 1 := by
    rw [← Vec.dist_eq_mag_sub]
    exact h
  simp only [Particle.seek]
  rw [if_pos hmag]

theorem closestAttractor_single (pos P : Vec) :
    ParticleSystem.closestAttractor pos [P] =
      if Vec.dist pos P < 150 then some (P, Vec.dist pos P) else none := by
  simp [ParticleSystem.closestAttractor]

theorem attractStep_empty (q : Particle) :
    ParticleSystem.attractStep [] q = q := by
  simp [ParticleSystem.attractStep]

theorem attractStep_far (q : Particle) (P : Vec)
    (h : ¬ Vec.dist q.position P < 150) :
    ParticleSystem.attractStep [P] q = q := by
  simp only [ParticleSystem.attractStep, closestAttractor_single]
  rw [if_neg h]
  simp

theorem attractStep_near (q : Particle) (P : Vec)
    (h : Vec.dist q.position P < 150) :
    ParticleSystem.attractStep [P] q =
      { q.applyForce
          (q.seek P (mapRange (Vec.dist q.position P) 0 150 2.5 0.5)) with
        isAttracted := true } := by
  simp only [ParticleSystem.attractStep, closestAttractor_single]
  rw [if_pos h]
  simp

theorem flockStep_position (w h : ℝ) (qs : List Particle) (p : Particle) :
    (ParticleSystem.flockStep w h qs p).position = p.position := rfl

theorem flockStep_isAttracted (w h : ℝ) (qs : List Particle) (p : Particle) :
    (ParticleSystem.flockStep w h qs p).isAttracted = false := rfl

theorem update_isAttracted (q : Particle) :
    (q.update).isAttracted = q.isAttracted := rfl

/-- Claim C10: when the closest attractor within range is closer than 1
unit, the attraction step still flags the particle as attracted while the
`seek` force it applies is the zero vector (so the acceleration is
unchanged) and the lifespan regenerates on the subsequent `update()`. -/
theorem attractor_closer_than_one_unit (p : Particle) (P : Vec)
    (h : Vec.dist p.position P < 1) :
    p.seek P (mapRange (Vec.dist p.position P) 0 150 2.5 0.5) = Vec.zero ∧
    (ParticleSystem.attractStep [P] p).isAttracted = true ∧
    (ParticleSystem.attractStep [P] p).acceleration = p.acceleration ∧
    ((ParticleSystem.attractStep [P] p).update).lifespan =
      min 255 (p.lifespan + p.decay * 2) := by
  have h150 : Vec.dist p.position P < 150 := lt_trans h (by norm_num)
  have hseek := seek_zero_of_close p P
    (mapRange (Vec.dist p.position P) 0 150 2.5 0.5) h
  have hstep := attractStep_near p P h150
  refine ⟨hseek, ?_, ?_, ?_⟩
  · rw [hstep]
  · rw [hstep]
    show (p.applyForce _).acceleration = p.acceleration
    rw [hseek]
    show p.acceleration.add Vec.zero = p.acceleration
    exact vec_add_zero p.acceleration
  · rw [hstep]
    simp [Particle.update, Particle.applyForce]

/-- Witness for C10: `p0` at (100,100) with an attractor at (100.5,100),
distance 0.5. -/
theorem attractor_closer_than_one_unit_witness :
    Vec.dist p0.position ⟨100.5, 100⟩ < 1 ∧
    (ParticleSystem.attractStep [⟨100.5, 100⟩] p0).isAttracted = true ∧
    (ParticleSystem.attractStep [⟨100.5, 100⟩] p0).acceleration =
      p0.acceleration := by
  have hd : Vec.dist p0.position ⟨100.5, 100⟩ = 0.5 := by
    rw [show p0.position = (⟨100, 100⟩ : Vec) from rfl]
    show (Vec.sub ⟨100, 100⟩ ⟨100.5, 100⟩).mag = 0.5
    rw [show Vec.sub ⟨100, 100⟩ ⟨100.5, 100⟩ = (⟨-0.5, 0⟩ : Vec) by
      unfold Vec.sub; norm_num]
    exact mag_mk_eval (by norm_num) (by norm_num)
  have h : Vec.dist p0.position ⟨100.5, 100⟩ < 1 := by rw [hd]; norm_num
  obtain ⟨-, h2, h3, -⟩ := attractor_closer_than_one_unit p0 ⟨100.5, 100⟩ h
  exact ⟨h, h2, h3⟩

/-- Claim C4: with a single attractor `P`, a particle farther than 150
units is not attracted (the tick is identical to one with no attractors at
all), while a particle closer than 150 units ends the tick with
`isAttracted = true` and gets the `seek`-computed force toward `P` with the
distance-mapped strength. The code's radius test is strict (`d < 150`), so
"within" is read as distance < 150. -/
theorem attraction_radius_rule (p : Particle) (qs : List Particle)
    (w h : ℝ) (P : Vec) :
    (Vec.dist p.position P > 150 →
      ParticleSystem.tickParticle [P] w h qs p =
        ParticleSystem.tickParticle [] w h qs p ∧
      (ParticleSystem.tickParticle [P] w h qs p).isAttracted = false) ∧
    (Vec.dist p.position P < 150 →
      (ParticleSystem.tickParticle [P] w h qs p).isAttracted = true ∧
      ∀ q : Particle, Vec.dist q.position P < 150 →
        ParticleSystem.attractStep [P] q =
          { q.applyForce
              (q.seek P (mapRange (Vec.dist q.position P) 0 150 2.5 0.5)) with
            isAttracted := true }) := by
  constructor
  · intro hfar
    have hnot : ¬ Vec.dist (ParticleSystem.flockStep w h qs p).position P
        < 150 := by
      rw [flockStep_position]
      exact not_lt.mpr hfar.le
    constructor
    · simp only [ParticleSystem.tickParticle]
      rw [attractStep_far _ _ hnot, attractStep_empty]
    · simp only [ParticleSystem.tickParticle]
      rw [attractStep_far _ _ hnot, update_isAttracted, flockStep_isAttracted]
  · intro hnear
    have hnear2 : Vec.dist (ParticleSystem.flockStep w h qs p).position P
        < 150 := by
      rw [flockStep_position]
      exact hnear
    refine ⟨?_, fun q hq => attractStep_near q P hq⟩
    simp only [ParticleSystem.tickParticle]
    rw [update_isAttracted, attractStep_near _ _ hnear2]

/-- Witness for C4: `p0` at (100,100); the attractor (300,100) is 200
units away and leaves the particle unattracted, the attractor (180,100) is
80 units away and attracts it. -/
theorem attraction_radius_rule_witness :
    Vec.dist p0.position ⟨300, 100⟩ > 150 ∧
    (ParticleSystem.tickParticle [⟨300, 100⟩] 800 600 [p0] p0).isAttracted
      = false ∧
    Vec.dist p0.position ⟨180, 100⟩ < 150 ∧
    (ParticleSystem.tickParticle [⟨180, 100⟩] 800 600 [p0] p0).isAttracted
      = true := by
  have h1 : Vec.dist p0.position ⟨300, 100⟩ = 200 := by
    rw [show p0.position = (⟨100, 100⟩ : Vec) from rfl]
    show (Vec.sub ⟨100, 100⟩ ⟨300, 100⟩).mag = 200
    rw [show Vec.sub ⟨100, 100⟩ ⟨300, 100⟩ = (⟨-200, 0⟩ : Vec) by
      unfold Vec.sub; norm_num]
    exact mag_mk_eval (by norm_num) (by norm_num)
  have h2 : Vec.dist p0.position ⟨180, 100⟩ = 80 := by
    rw [show p0.position = (⟨100, 100⟩ : Vec) from rfl]
    show (Vec.sub ⟨100, 100⟩ ⟨180, 100⟩).mag = 80
    rw [show Vec.sub ⟨100, 100⟩ ⟨180, 100⟩ = (⟨-80, 0⟩ : Vec) by
      unfold Vec.sub; norm_num]
    exact mag_mk_eval (by norm_num) (by norm_num)
  refine ⟨by rw [h1]; norm_num, ?_, by rw [h2]; norm_num, ?_⟩
  · exact ((attraction_radius_rule p0 [p0] 800 600 ⟨300, 100⟩).1
      (by rw [h1]; norm_num)).2
  · exact ((attraction_radius_rule p0 [p0] 800 600 ⟨180, 100⟩).2
      (by rw [h2]; norm_num)).1

theorem borderP_borders_eval : borderP.borders 800 600 = ⟨0.1, 0⟩ := by
  simp only [Particle.borders]
  rw [show borderP.position = (⟨5, 300⟩ : Vec) from rfl,
      show borderP.velocity = (⟨-3, 0⟩ : Vec) from rfl,
      show borderP.maxSpeed = (4:ℝ) from rfl,
      show borderP.maxForce = (0.1:ℝ) from rfl]
  norm_num
  rw [normalize_mk_eval
    (mag_mk_eval (by norm_num) (by norm_num) : (⟨4, 0⟩ : Vec).mag = 4)
    (by norm_num)]
  rw [show ((⟨4 * (1/4), 0 * (1/4)⟩ : Vec).mult 4) = (⟨4, 0⟩ : Vec) by
    unfold Vec.mult; norm_num]
  rw [show Vec.sub ⟨4, 0⟩ ⟨-3, 0⟩ = (⟨7, 0⟩ : Vec) by
    unfold Vec.sub; norm_num]
  rw [limit_mk_gt (by unfold Vec.magSq; norm_num)
    (mag_mk_eval (by norm_num) (by norm_num) : (⟨7, 0⟩ : Vec).mag = 7)]
  norm_num

/-! ### List lemmas for the backward removal loop -/

theorem drop_eraseIdx_self {α : Type _} :
    ∀ (l : List α) (i : ℕ), (l.eraseIdx i).drop i = l.drop (i + 1)
  | [], _ => by simp [List.eraseIdx]
  | _ :: _, 0 => by simp [List.eraseIdx]
  | a :: l, i + 1 => by
      simp only [List.eraseIdx, List.drop_succ_cons]
      exact drop_eraseIdx_self l i

theorem drop_set_self {α : Type _} :
    ∀ (l : List α) (i : ℕ) (a : α), i < l.length →
      (l.set i a).drop i = a :: l.drop (i + 1)
  | [], i, a, h => absurd h (by simp)
  | _ :: _, 0, a, _ => by simp
  | b :: l, i + 1, a, h => by
      simp only [List.set, List.drop_succ_cons]
      exact drop_set_self l i a (by simpa using h)

/-! ### Loop stepping and invariants -/

namespace ParticleSystem

theorem sysLoop_succ (atts : List Vec) (w h : ℝ) (i : ℕ)
    (ps : List Particle) (hi : i < ps.length) :
    sysLoop atts w h (i + 1) ps =
      sysLoop atts w h i
        (if (tickParticle atts w h ps ps[i]).isDead then ps.eraseIdx i
         else ps.set i (tickParticle atts w h ps ps[i])) := by
  simp only [sysLoop, List.getElem?_eq_getElem hi]

theorem sysDeaths_succ (atts : List Vec) (w h : ℝ) (i : ℕ)
    (ps : List Particle) (hi : i < ps.length) :
    sysDeaths atts w h (i + 1) ps =
      if (tickParticle atts w h ps ps[i]).isDead then
        1 + sysDeaths atts w h i (ps.eraseIdx i)
      else sysDeaths atts w h i (ps.set i (tickParticle atts w h ps ps[i])) := by
  simp only [sysDeaths, List.getElem?_eq_getElem hi]

/-- Any property that holds of every non-dead tick result, and of every
still-unprocessed particle, holds of every particle the loop returns. -/
theorem sysLoop_prop (atts : List Vec) (w h : ℝ) (Q : Particle → Prop)
    (hQ : ∀ qs q, ¬ (tickParticle atts w h qs q).isDead →
      Q (tickParticle atts w h qs q)) :
    ∀ (i : ℕ) (ps : List Particle), i ≤ ps.length →
      (∀ q ∈ ps.drop i, Q q) → ∀ q ∈ sysLoop atts w h i ps, Q q := by
  intro i
  induction i with
  | zero =>
      intro ps _ hdrop q hq
      exact hdrop q (by simpa using hq)
  | succ i ih =>
      intro ps hlen hdrop q hq
      have hi : i < ps.length := Nat.lt_of_succ_le hlen
      rw [sysLoop_succ atts w h i ps hi] at hq
      by_cases hdead : (tickParticle atts w h ps ps[i]).isDead
      · rw [if_pos hdead] at hq
        refine ih (ps.eraseIdx i) ?_ ?_ q hq
        · rw [List.length_eraseIdx_of_lt hi]
          omega
        · intro r hr
          rw [drop_eraseIdx_self] at hr
          exact hdrop r hr
      · rw [if_neg hdead] at hq
        refine ih (ps.set i _) ?_ ?_ q hq
        · rw [List.length_set]
          omega
        · intro r hr
          rw [drop_set_self ps i _ hi] at hr
          rcases List.mem_cons.mp hr with rfl | hr2
          · exact hQ ps ps[i] hdead
          · exact hdrop r hr2

/-- The loop removes exactly `sysDeaths` particles. -/
theorem sysLoop_length_deaths (atts : List Vec) (w h : ℝ) :
    ∀ (i : ℕ) (ps : List Particle), i ≤ ps.length →
      (sysLoop atts w h i ps).length + sysDeaths atts w h i ps
        = ps.length := by
  intro i
  induction i with
  | zero => intro ps _; simp [sysLoop, sysDeaths]
  | succ i ih =>
      intro ps hlen
      have hi : i < ps.length := Nat.lt_of_succ_le hlen
      rw [sysLoop_succ atts w h i ps hi, sysDeaths_succ atts w h i ps hi]
      by_cases hdead : (tickParticle atts w h ps ps[i]).isDead
      · rw [if_pos hdead, if_pos hdead]
        have h1 := ih (ps.eraseIdx i)
          (by rw [List.length_eraseIdx_of_lt hi]; omega)
        rw [List.length_eraseIdx_of_lt hi] at h1
        omega
      · rw [if_neg hdead, if_neg hdead]
        have h1 := ih (ps.set i (tickParticle atts w h ps ps[i]))
          (by rw [List.length_set]; omega)
        rw [List.length_set] at h1
        omega

theorem replenish_length (sys : ParticleSystem) (fresh : ℕ → Particle)
    (hlen : sys.particles.length ≤ sys.maxParticles) :
    (sys.replenish fresh).length = sys.maxParticles := by
  simp only [replenish, List.length_append, List.length_map,
    List.length_range]
  omega

end ParticleSystem

/-! ### Evaluation of a solo tick (one particle, no attractors) -/

theorem vec_add_zero_mult (a : Vec) (s : ℝ) :
    a.add (Vec.zero.mult s) = a := by
  ext <;> simp [Vec.add, Vec.mult, Vec.zero]

theorem separate_solo (p : Particle) (d : ℝ) :
    p.separate [p] d = Vec.zero := by
  simp [Particle.separate, Vec.dist_self, Vec.mag_zero]

theorem align_solo (p : Particle) (d : ℝ) :
    p.align [p] d = Vec.zero := by
  simp [Particle.align, Vec.dist_self]

theorem cohesion_solo (p : Particle) (d : ℝ) :
    p.cohesion [p] d = Vec.zero := by
  simp [Particle.cohesion, Vec.dist_self]

theorem borders_interior (p : Particle) (w h : ℝ)
    (hx1 : ¬ p.position.x < 50) (hx2 : ¬ p.position.x > w - 50)
    (hy1 : ¬ p.position.y < 50) (hy2 : ¬ p.position.y > h - 50) :
    p.borders w h = Vec.zero := by
  simp only [Particle.borders]
  rw [if_neg hx1, if_neg hx2, if_neg hy1, if_neg hy2]

/-- A particle alone in the interior of the canvas, with no attractors,
receives no force: its tick is exactly `Particle.update`. -/
theorem tick_solo (p : Particle) (w h : ℝ)
    (hacc : p.acceleration = Vec.zero) (hA : p.isAttracted = false)
    (hx1 : ¬ p.position.x < 50) (hx2 : ¬ p.position.x > w - 50)
    (hy1 : ¬ p.position.y < 50) (hy2 : ¬ p.position.y > h - 50) :
    ParticleSystem.tickParticle [] w h [p] p = p.update := by
  have hflock : ParticleSystem.flockStep w h [p] p = p := by
    unfold ParticleSystem.flockStep Particle.applyForce
    rw [separate_solo, align_solo, cohesion_solo,
      borders_interior p w h hx1 hx2 hy1 hy2]
    rcases p with ⟨pos, vel, acc, ms, mf, sz, ls, dc, ia⟩
    simp only at hacc hA
    subst hacc hA
    simp only [vec_add_zero_mult]
  simp only [ParticleSystem.tickParticle]
  rw [hflock, attractStep_empty]

theorem dyingP_tick_dead :
    (ParticleSystem.tickParticle [] 800 600 [dyingP] dyingP).isDead := by
  rw [tick_solo dyingP 800 600 rfl rfl (by norm_num [dyingP])
    (by norm_num [dyingP]) (by norm_num [dyingP]) (by norm_num [dyingP])]
  simp [Particle.update, Particle.isDead, dyingP]

theorem p0_tick_alive :
    ¬ (ParticleSystem.tickParticle [] 800 600 [p0] p0).isDead := by
  rw [tick_solo p0 800 600 rfl rfl (by norm_num [p0]) (by norm_num [p0])
    (by norm_num [p0]) (by norm_num [p0])]
  simp [Particle.update, Particle.isDead, p0]

theorem sysC1_update_particles :
    (sysC1.update (fun _ => dyingP) 800 600).particles = [] := by
  have hrep : sysC1.replenish (fun _ => dyingP) = [dyingP] := by
    simp [ParticleSystem.replenish, sysC1]
  simp only [ParticleSystem.update, hrep]
  show ParticleSystem.sysLoop [] 800 600 1 [dyingP] = []
  rw [ParticleSystem.sysLoop_succ [] 800 600 0 [dyingP] (by simp)]
  rw [if_pos (by simpa using dyingP_tick_dead)]
  rfl

theorem sysC6_update_particles :
    (sysC6.update (fun _ => p0) 800 600).particles =
      [ParticleSystem.tickParticle [] 800 600 [p0] p0] := by
  have hrep : sysC6.replenish (fun _ => p0) = [p0] := by
    simp [ParticleSystem.replenish, sysC6]
  simp only [ParticleSystem.update, hrep]
  show ParticleSystem.sysLoop [] 800 600 1 [p0] =
    [ParticleSystem.tickParticle [] 800 600 [p0] p0]
  rw [ParticleSystem.sysLoop_succ [] 800 600 0 [p0] (by simp)]
  rw [if_neg (by simpa using p0_tick_alive)]
  rfl

/-- Claim C1 (amended): after every completed `update()`, the population
size is `maxParticles` minus the number of particles that died during the
tick — it equals `maxParticles` only when no particle died, because
replenishment happens before the death pass and a removed particle is not
replaced until the next tick. -/
theorem population_after_update (sys : ParticleSystem)
    (fresh : ℕ → Particle) (w h : ℝ)
    (hlen : sys.particles.length ≤ sys.maxParticles) :
    (sys.update fresh w h).particles.length +
      ParticleSystem.sysDeaths sys.attractors w h
        (sys.replenish fresh).length (sys.replenish fresh)
      = sys.maxParticles ∧
    (sys.update fresh w h).particles.length ≤ sys.maxParticles := by
  have hrep := sys.replenish_length fresh hlen
  have h1 := ParticleSystem.sysLoop_length_deaths sys.attractors w h
    (sys.replenish fresh).length (sys.replenish fresh) le_rfl
  have h2 : (sys.update fresh w h).particles =
      ParticleSystem.sysLoop sys.attractors w h
        (sys.replenish fresh).length (sys.replenish fresh) := rfl
  rw [h2, hrep] at *
  omega

/-- Witness for C1 (amended): a one-particle system whose particle dies;
the final population size plus the one death equals `maxParticles`. -/
theorem population_after_update_witness :
    sysC1.particles.length ≤ sysC1.maxParticles ∧
    (sysC1.update (fun _ => dyingP) 800 600).particles.length +
      ParticleSystem.sysDeaths sysC1.attractors 800 600
        (sysC1.replenish (fun _ => dyingP)).length
        (sysC1.replenish (fun _ => dyingP))
      = sysC1.maxParticles := by
  have hlen : sysC1.particles.length ≤ sysC1.maxParticles := by
    simp [sysC1]
  exact ⟨hlen,
    (population_after_update sysC1 (fun _ => dyingP) 800 600 hlen).1⟩

/-- Counterexample for C1 as stated: in `sysC1` the lone particle dies
during the tick, and after the completed `update()` the population size is
0, not `maxParticles = 1`. -/
theorem population_not_restored_after_death :
    (sysC1.update (fun _ => dyingP) 800 600).particles.length ≠
      sysC1.maxParticles := by
  rw [sysC1_update_particles]
  simp [sysC1]

/-- Claim C6: every particle remaining in the population after a completed
`ParticleSystem.update()` has `lifespan > 0` (a particle whose lifespan
reached ≤ 0 is removed within the same call). -/
theorem survivors_alive (sys : ParticleSystem) (fresh : ℕ → Particle)
    (w h : ℝ) :
    ∀ q ∈ (sys.update fresh w h).particles, 0 < q.lifespan := by
  intro q hq
  have h2 : (sys.update fresh w h).particles =
      ParticleSystem.sysLoop sys.attractors w h
        (sys.replenish fresh).length (sys.replenish fresh) := rfl
  rw [h2] at hq
  refine ParticleSystem.sysLoop_prop sys.attractors w h
    (fun r => 0 < r.lifespan) ?_ (sys.replenish fresh).length
    (sys.replenish fresh) le_rfl ?_ q hq
  · intro qs r hnd
    unfold Particle.isDead at hnd
    push_neg at hnd
    exact hnd
  · intro r hr
    rw [List.drop_length] at hr
    simp at hr

/-- Witness for C6: the surviving particle of `sysC6`'s update is a member
of the final population and its lifespan is positive. -/
theorem survivors_alive_witness :
    ParticleSystem.tickParticle [] 800 600 [p0] p0 ∈
      (sysC6.update (fun _ => p0) 800 600).particles ∧
    0 < (ParticleSystem.tickParticle [] 800 600 [p0] p0).lifespan := by
  have hmem : ParticleSystem.tickParticle [] 800 600 [p0] p0 ∈
      (sysC6.update (fun _ => p0) 800 600).particles := by
    rw [sysC6_update_particles]
    exact List.mem_singleton.mpr rfl
  exact ⟨hmem, survivors_alive sysC6 (fun _ => p0) 800 600 _ hmem⟩

/-- Claim C8: after `setAttractors([])` and an `update()`, the attraction
block is the identity on every particle (no attraction force is applied)
and every particle in the population ends the tick with
`isAttracted = false`. -/
theorem empty_attractors_no_attraction (sys : ParticleSystem)
    (fresh : ℕ → Particle) (w h : ℝ) :
    (∀ q : Particle, ParticleSystem.attractStep [] q = q) ∧
    ∀ q ∈ ((sys.setAttractors []).update fresh w h).particles,
      q.isAttracted = false := by
  refine ⟨attractStep_empty, ?_⟩
  intro q hq
  have h2 : ((sys.setAttractors []).update fresh w h).particles =
      ParticleSystem.sysLoop [] w h
        ((sys.setAttractors []).replenish fresh).length
        ((sys.setAttractors []).replenish fresh) := rfl
  rw [h2] at hq
  refine ParticleSystem.sysLoop_prop [] w h
    (fun r => r.isAttracted = false) ?_ _ _ le_rfl ?_ q hq
  · intro qs r _
    simp only [ParticleSystem.tickParticle, attractStep_empty,
      update_isAttracted, flockStep_isAttracted]
  · intro r hr
    rw [List.drop_length] at hr
    simp at hr

/-- Witness for C8: in `sysC6` (whose attractor list is empty, equal to
`sysC6.setAttractors []`) the surviving particle ends unattracted. -/
theorem empty_attractors_no_attraction_witness :
    ParticleSystem.tickParticle [] 800 600 [p0] p0 ∈
      ((sysC6.setAttractors []).update (fun _ => p0) 800 600).particles ∧
    (ParticleSystem.tickParticle [] 800 600 [p0] p0).isAttracted = false := by
  have hsys : sysC6.setAttractors [] = sysC6 := rfl
  have hmem : ParticleSystem.tickParticle [] 800 600 [p0] p0 ∈
      ((sysC6.setAttractors []).update (fun _ => p0) 800 600).particles := by
    rw [hsys, sysC6_update_particles]
    exact List.mem_singleton.mpr rfl
  exact ⟨hmem,
    (empty_attractors_no_attraction sysC6 (fun _ => p0) 800 600).2 _ hmem⟩

/-- Claim C9: a particle at (5,300) with velocity (-3,0) in an 800×600
canvas gets from one `borders(800, 600)` call a nonzero force with a
positive x-component (in fact `(0.1, 0)`). -/
theorem borders_scenario_pushes_right :
    0 < (borderP.borders 800 600).x ∧ borderP.borders 800 600 ≠ Vec.zero := by
  rw [borderP_borders_eval]
  constructor
  · norm_num
  · intro h
    have := congrArg Vec.x h
    simp only [Vec.zero] at this
    norm_num at this

end
